import Mathlib

/-!
Formal model of the document-generation service implemented in `app.py`
(MyTypist prototype).  Python string/regex primitives are embedded at the
character-list level (ASCII semantics); external libraries (the docx zip
reader, `dateutil.parse`, `re.match` on user-supplied patterns, the
docxtpl renderer, the database session and the wall clock) enter as
explicit parameters of the modelled functions.  Each definition is a
direct translation of the corresponding Python function.
-/

/-! ## Character-level helpers (Python string semantics, ASCII fragment) -/

/-- The character `"{"` (written via its code point). -/
def lbraceChar : Char := Char.ofNat 123

/-- The character `"}"` (written via its code point). -/
def rbraceChar : Char := Char.ofNat 125

/-- Python's regex class `\s` over ASCII: space, tab, newline, carriage
return, vertical tab, form feed. -/
def isPySpace (c : Char) : Bool :=
  c = ' ' || c = '\t' || c = '\n' || c = '\r' || c = '\x0b' || c = '\x0c'

/-- Python's regex class `\w` over ASCII: letters, digits, underscore. -/
def isPyWordChar (c : Char) : Bool :=
  c.isAlphanum || c = '_'

/-- Python `str.isupper` over ASCII: at least one cased character and every
cased character is upper case. -/
def pyIsUpperL (l : List Char) : Bool :=
  l.any Char.isAlpha && l.all (fun c => !c.isAlpha || c.isUpper)

/-- Python `str.upper` (ASCII fragment). -/
def pyUpper (s : String) : String := ⟨s.data.map Char.toUpper⟩

/-- Python `str.lower` (ASCII fragment). -/
def pyLower (s : String) : String := ⟨s.data.map Char.toLower⟩

/-- One step of Python `str.title`: a letter that follows a non-letter is
upper-cased, a letter that follows a letter is lower-cased.  The Boolean
argument records whether the previous character was a letter. -/
def pyTitleAux (prevAlpha : Bool) : List Char → List Char
  | [] => []
  | c :: rest =>
    if c.isAlpha then
      (if prevAlpha then c.toLower else c.toUpper) :: pyTitleAux true rest
    else
      c :: pyTitleAux false rest

/-- Python `str.title` (ASCII fragment). -/
def pyTitle (s : String) : String := ⟨pyTitleAux false s.data⟩

/-- Whether `pat` is a leading block of `l` (Python `str.startswith` at the
character level). -/
def startsWithChars : List Char → List Char → Bool
  | [], _ => true
  | _ :: _, [] => false
  | p :: ps, c :: cs => p = c && startsWithChars ps cs

/-- Whether `pat` occurs contiguously inside `l` (Python's `in` operator on
strings, at the character level). -/
def containsChars (pat : List Char) : List Char → Bool
  | [] => startsWithChars pat []
  | c :: cs => startsWithChars pat (c :: cs) || containsChars pat cs

/-- Python `needle in haystack` on strings. -/
def pyContains (haystack needle : String) : Bool :=
  containsChars needle.data haystack.data

/-- Python `str.strip()` at the character level: whitespace removed from
both ends. -/
def pyStripL (l : List Char) : List Char :=
  (((l.dropWhile isPySpace).reverse).dropWhile isPySpace).reverse

/-- Python `str.strip()`. -/
def pyStrip (s : String) : String := ⟨pyStripL s.data⟩

/-- Python `str.split(sep)` for a one-character separator. -/
def splitOnChar (sep : Char) : List Char → List (List Char)
  | [] => [[]]
  | c :: rest =>
    let r := splitOnChar sep rest
    if c = sep then [] :: r
    else
      match r with
      | [] => [[c]]
      | h :: t => (c :: h) :: t

/-- Python `sep.join(parts)` at the character level. -/
def joinWith (sep : List Char) : List (List Char) → List Char
  | [] => []
  | [l] => l
  | l :: rest => l ++ sep ++ joinWith sep rest

/-- Python `sep.join(parts)`. -/
def pyJoin (sep : String) (parts : List String) : String :=
  ⟨joinWith sep.data (parts.map String.data)⟩

/-- Python `str.endswith(c)` for a one-character suffix. -/
def pyEndsWith (s : String) (c : Char) : Bool :=
  match s.data.getLast? with
  | some d => d = c
  | none => false

/-- The part of `l` before the first occurrence of the (non-empty)
separator `sep`; all of `l` when `sep` does not occur. -/
def prefixBeforeSub (sep : List Char) : List Char → List Char
  | [] => []
  | c :: rest =>
    if startsWithChars sep (c :: rest) then []
    else c :: prefixBeforeSub sep rest

/-! ## `DocumentProcessor.apply_casing` -/

namespace DocumentProcessor

/-- Translation of `DocumentProcessor.apply_casing`: dispatch on the casing
mode string, defaulting to the identity. -/
def apply_casing (value : String) (casing : String) : String :=
  if casing = "upper" then pyUpper value
  else if casing = "lower" then pyLower value
  else if casing = "title" then pyTitle value
  else value

end DocumentProcessor

/-! ## `fix_date_ordinal_casing`

The source substitutes the regex `(\d+)(Th|St|Nd|Rd)\b` by lower-casing the
second group, unless the whole text is upper case.  The scanner below is
character-by-character: a replacement fires exactly when a digit is
immediately followed by one of the four capitalised suffixes and then a word
boundary, which is exactly when a regex match ends at that suffix (the `\d+`
group only reproduces its digits, so the replacement changes the two suffix
characters and nothing else, and matches of the pattern cannot overlap). -/

/-- The four capitalised ordinal suffixes `Th | St | Nd | Rd` of the regex
alternation, checked on two consecutive characters. -/
def isSuffixPair (a b : Char) : Bool :=
  (a = 'T' && b = 'h') || (a = 'S' && b = 't') ||
  (a = 'N' && b = 'd') || (a = 'R' && b = 'd')

/-- The regex word boundary `\b` after a suffix: end of text or a non-word
character next. -/
def wordBoundaryAfter : List Char → Bool
  | [] => true
  | c :: _ => !(isPyWordChar c)

/-- Character-level translation of
`re.sub(r'(\d+)(Th|St|Nd|Rd)\b', lambda m: m.group(1) + m.group(2).lower(), text)`. -/
def subOrdinals : List Char → List Char
  | [] => []
  | c :: a :: b :: r2 =>
    if c.isDigit && isSuffixPair a b && wordBoundaryAfter r2 then
      c :: a.toLower :: b.toLower :: subOrdinals r2
    else
      c :: subOrdinals (a :: b :: r2)
  | c :: rest => c :: subOrdinals rest

/-- Translation of `fix_date_ordinal_casing`: keep fully upper-case text
untouched, otherwise lower-case capitalised ordinal suffixes after digits. -/
def fix_date_ordinal_casing (text : String) : String :=
  if pyIsUpperL text.data then text
  else ⟨subOrdinals text.data⟩

/-! ## `DocumentProcessor.format_date` and `DocumentProcessor.ordinal`

The external `dateutil.parser.parse` (which raises `ValueError` on
unparseable input, caught by the source) is a parameter `parseF : String →
Option PyDate`; the current wall-clock moment in the `Africa/Lagos`
timezone is a parameter `nowWAT : PyDate`. -/

/-- Calendar date as used by `format_date`: the `.day`, `.month` (1-12) and
`.year` attributes of the parsed/localised datetime. -/
structure PyDate where
  day : Nat
  month : Nat
  year : Nat
  deriving DecidableEq, Repr

/-- The month name produced by `strftime("%B")`. -/
def monthName : Nat → String
  | 1 => "January"
  | 2 => "February"
  | 3 => "March"
  | 4 => "April"
  | 5 => "May"
  | 6 => "June"
  | 7 => "July"
  | 8 => "August"
  | 9 => "September"
  | 10 => "October"
  | 11 => "November"
  | 12 => "December"
  | _ => ""

namespace DocumentProcessor

/-- Translation of `DocumentProcessor.ordinal`: the suffix is `th` for
`11 <= n % 100 <= 13`, otherwise indexed from `['th','st','nd','rd','th']`
at `min(n % 10, 4)`. -/
def ordinal (n : Nat) : String :=
  let suffix :=
    if 11 ≤ n % 100 ∧ n % 100 ≤ 13 then "th"
    else (["th", "st", "nd", "rd", "th"].getD (min (n % 10) 4) "th")
  toString n ++ suffix

/-- Translation of `DocumentProcessor.format_date`.  A blank input is
replaced by the current West-Africa time; a non-blank input goes through
`parseF`, and a parse failure returns the raw input unchanged (the
`except ValueError` branch). -/
def format_date (parseF : String → Option PyDate) (nowWAT : PyDate)
    (date_string : String) (template_type : String) : String :=
  let dateObj : Option PyDate :=
    if date_string = "" ∨ pyStrip date_string = "" then some nowWAT
    else parseF date_string
  match dateObj with
  | none => date_string
  | some d =>
    let day := ordinal d.day
    let month := monthName d.month
    let year := toString d.year
    if pyLower template_type = "letter" then
      day ++ " " ++ month ++ ", " ++ year
    else if pyLower template_type = "affidavit" then
      day ++ " of " ++ month ++ ", " ++ year
    else
      day ++ " " ++ month ++ ", " ++ year

end DocumentProcessor

/-! ## `DocumentProcessor.format_address` -/

/-- The loop `while address.endswith('.'): address = address[:-1].strip()`,
acting on the reversed character list (the input to `format_address` is
already stripped, so `strip()` inside the loop can only remove trailing
whitespace, i.e. leading characters of the reversed list).  The fuel
argument only bounds the iteration count: every iteration removes the
leading period, so starting the fuel at the list length always reaches the
loop's exit condition. -/
def stripDotsRevFuel : Nat → List Char → List Char
  | 0, l => l
  | fuel + 1, l =>
    match l with
    | [] => []
    | c :: rest =>
      if c = '.' then stripDotsRevFuel fuel (rest.dropWhile isPySpace)
      else c :: rest

/-- The trailing-period-stripping loop of the affidavit branch of
`format_address`, on the reversed character list. -/
def stripDotsRev (l : List Char) : List Char :=
  stripDotsRevFuel l.length l

/-- The letter-branch loops of `format_address`: append a comma to every
line except the last, and make the last line end with a period. -/
def commaAllButLast : List String → List String
  | [] => []
  | [l] => [if pyEndsWith l '.' then l else l ++ "."]
  | l :: rest => (l ++ ",") :: commaAllButLast rest

namespace DocumentProcessor

/-- Translation of `DocumentProcessor.format_address`. -/
def format_address (address_string : String) (template_type : String) : String :=
  if address_string = "" ∨ pyStrip address_string = "" then address_string
  else
    let address := pyStrip address_string
    if pyLower template_type = "letter" then
      let lines := ((splitOnChar ',' address.data).map pyStripL).map (fun l => (⟨l⟩ : String))
      let lines := lines.filter (fun l => l ≠ "")
      if lines.isEmpty then address
      else pyJoin "\n" (commaAllButLast lines)
    else if pyLower template_type = "affidavit" then
      ⟨(stripDotsRev address.data.reverse).reverse⟩
    else address

end DocumentProcessor

/-! ## `DocumentProcessor.extract_template_variables`

The document is modelled after the XML accessed by the source: a list of
`w:p` paragraphs, each with an optional `w:jc` alignment and a list of
`w:r` runs; a run has the concatenated text of its `w:t` children and an
optional `w:rPr` properties element.  The regex
`\{\{\s*(\w+)\s*\}\}` is deterministic (its character classes meet no
backtracking: `\s`, `\w` and the braces are pairwise disjoint), and two of
its matches can never overlap (a match contains `{` only at its first two
positions, and a match cannot start at the second `{` because the third
character of a match is never `{`), so the scanner below, which tries a
match at every position and always advances one character, records exactly
the `re.finditer` matches with their start offsets. -/

/-- The `w:rPr` run-properties element: `w:rFonts/@w:ascii`, the integer
value of `w:sz/@w:val` when present and parseable, and presence of
`w:b`, `w:i`, `w:u`. -/
structure RProps where
  rFontsAscii : Option String
  szVal : Option Nat
  hasB : Bool
  hasI : Bool
  hasU : Bool
  deriving DecidableEq, Repr

/-- A `w:r` run: optional properties and the concatenation of its `w:t`
text nodes. -/
structure Run where
  props : Option RProps
  text : List Char
  deriving DecidableEq, Repr

/-- A `w:p` paragraph: optional `w:jc` alignment value and its runs. -/
structure Para where
  alignment : Option String
  runs : List Run
  deriving DecidableEq, Repr

/-- The `actual_formatting` dictionary built for each placeholder. -/
structure Formatting where
  bold : Bool
  italic : Bool
  underline : Bool
  font : Option String
  size : Option Nat
  deriving DecidableEq, Repr

/-- One entry of `placeholder_instances`. -/
structure Occurrence where
  name : List Char
  paragraph_index : Nat
  run_index : Nat
  formatting : Formatting
  alignment : Option String
  deriving DecidableEq, Repr

/-- The closing braces of the placeholder pattern: the remaining text must
begin with two closing braces. -/
def checkClose : List Char → Bool
  | d1 :: d2 :: _ => d1 = rbraceChar && d2 = rbraceChar
  | _ => false

/-- The part of the placeholder pattern after the two opening braces:
optional whitespace, a non-empty word-character name (greedy, which is
exact because the character classes of the pattern are pairwise disjoint),
optional whitespace, then the closing braces checked by `checkClose`. -/
def matchAfterBraces (rest : List Char) : Option (List Char) :=
  let name := (rest.dropWhile isPySpace).takeWhile isPyWordChar
  if name.isEmpty then none
  else if checkClose (((rest.dropWhile isPySpace).dropWhile isPyWordChar).dropWhile isPySpace)
  then some name else none

/-- Attempt to match the placeholder pattern (two opening braces, optional
whitespace, a word-character name, optional whitespace, two closing
braces) at the head of `s`, returning the captured group. -/
def matchAtHead (s : List Char) : Option (List Char) :=
  match s with
  | c1 :: c2 :: rest =>
    if c1 = lbraceChar ∧ c2 = lbraceChar then matchAfterBraces rest
    else none
  | _ => none

/-- All matches of the placeholder pattern with their start offsets, in
left-to-right order (`re.finditer` on the paragraph text). -/
def findMatches : List Char → Nat → List (Nat × List Char)
  | [], _ => []
  | c :: rest, pos =>
    match matchAtHead (c :: rest) with
    | some name => (pos, name) :: findMatches rest (pos + 1)
    | none => findMatches rest (pos + 1)

/-- The `runs_text` list of a paragraph. -/
def runsText (p : Para) : List (List Char) :=
  p.runs.map Run.text

/-- The `full_text` of a paragraph: concatenation of all run texts. -/
def fullText (p : Para) : List Char :=
  (runsText p).flatten

/-- The `cum_pos` array: cumulative lengths of the run texts, starting
at `0`. -/
def cumPos (ts : List (List Char)) : List Nat :=
  ts.scanl (fun acc rt => acc + rt.length) 0

/-- The run-index search: the first `idx` with
`cum_pos[idx] <= start_pos < cum_pos[idx + 1]`, if any. -/
def findRunIdx (ts : List (List Char)) (startPos : Nat) : Option Nat :=
  (List.range ts.length).find? fun idx =>
    decide ((cumPos ts).getD idx 0 ≤ startPos ∧ startPos < (cumPos ts).getD (idx + 1) 0)

/-- A run with no properties, as a lookup default (never reached: the
returned index is always in bounds). -/
def dummyRun : Run := ⟨none, []⟩

/-- The `actual_formatting` read from a run: defaults when there is no
`w:rPr`, otherwise fonts/size/styling from the properties, with the
half-point size converted to points by integer division by two. -/
def fmtOfRun (run : Run) : Formatting :=
  match run.props with
  | none => ⟨false, false, false, none, none⟩
  | some p => ⟨p.hasB, p.hasI, p.hasU, p.rFontsAscii, p.szVal.map (· / 2)⟩

/-- The per-paragraph part of the extraction loop. -/
def extractPara (paraIdx : Nat) (p : Para) : List Occurrence :=
  (findMatches (fullText p) 0).filterMap fun m =>
    match findRunIdx (runsText p) m.1 with
    | none => none
    | some i => some ⟨m.2, paraIdx, i, fmtOfRun (p.runs.getD i dummyRun), p.alignment⟩

namespace DocumentProcessor

/-- Translation of `DocumentProcessor.extract_template_variables` on the
parsed document model. -/
def extract_template_variables (doc : List Para) : List Occurrence :=
  (doc.enum.map fun ip => extractPara ip.1 ip.2).flatten

end DocumentProcessor

/-! ## Field catalog, validation, context preparation, generation, batch

A `Placeholder` database row is modelled with the columns the algorithms
read.  Optional text columns (`display_name`, `validation_pattern`,
`default_value`) are modelled as `String` with `""` for unset, which has
exactly the Python truthiness behaviour the source relies on (`x or ''`,
`if x:`).  Regex matching of user-supplied validation patterns
(`re.match`) is a parameter `rmatch : pattern → value → Bool`. -/

/-- The `Placeholder` row fields used by validation and rendering. -/
structure Ph where
  name : String
  display_name : String
  placeholder_type : String
  is_required : Bool
  sort_order : Int
  casing : String
  validation_pattern : String
  default_value : String
  deriving DecidableEq, Repr, Inhabited

/-- The `Template` row fields used by validation and rendering. -/
structure TemplateM where
  type : String
  placeholders : List Ph
  deriving DecidableEq, Repr, Inhabited

/-- Python `a or b` on strings with `""` as the falsy case. -/
def pyOrS (a b : String) : String := if a = "" then b else a

/-- The base name of a placeholder:
`ph.name.split('_instance_')[0] if '_instance_' in ph.name else ph.name`. -/
def baseNameOf (n : String) : String :=
  if pyContains n "_instance_" then ⟨prefixBeforeSub "_instance_".data n.data⟩
  else n

/-- Grouping keys in first-occurrence order, as iterating the
`defaultdict(list)` built by insertion does. -/
def groupKeys (phs : List Ph) : List String :=
  phs.foldl
    (fun acc ph =>
      let b := baseNameOf ph.name
      if b ∈ acc then acc else acc ++ [b])
    []

/-- The members of one base-name group, in catalog order. -/
def groupOf (phs : List Ph) (b : String) : List Ph :=
  phs.filter fun ph => baseNameOf ph.name = b

/-- Python `min(phs, key=lambda p: p.sort_order)`: the first element of
least sort order. -/
def pyMinSort (phs : List Ph) : Ph :=
  match phs with
  | [] => default
  | p :: rest =>
    rest.foldl (fun best q => if q.sort_order < best.sort_order then q else best) p

namespace DocumentProcessor

/-- The body of the per-group loop of `DocumentProcessor.validate_inputs`:
the required check followed by the per-member pattern checks for the group
of base name `b`. -/
def groupValidation (rmatch : String → String → Bool) (phs : List Ph)
    (user_inputs : String → Option String) (b : String) : List String :=
  let grp := groupOf phs b
  let value := (user_inputs b).getD ""
  let requiredErrs :=
    if grp.any (fun ph => ph.is_required) && pyStrip value = "" then
      [pyOrS (pyMinSort grp).display_name b ++ " is required"]
    else []
  let patternErrs :=
    if pyStrip value ≠ "" then
      grp.filterMap fun ph =>
        if ph.validation_pattern ≠ "" && !(rmatch ph.validation_pattern value) then
          some (pyOrS ph.display_name b ++ " is invalid")
        else none
    else []
  requiredErrs ++ patternErrs

/-- Translation of `DocumentProcessor.validate_inputs`.  `user_inputs` is
the request dictionary (`none` = key absent); `rmatch pat v` is
`re.match(pat, v)` being truthy. -/
def validate_inputs (rmatch : String → String → Bool) (phs : List Ph)
    (user_inputs : String → Option String) : List String :=
  (groupKeys phs).flatMap (groupValidation rmatch phs user_inputs)

/-- Translation of `DocumentProcessor.prepare_context` on the
`preserve_original_formatting=True` path taken by `generate_document`:
per-placeholder raw-value lookup with the instance fallback, then the
date/address transforms and casing, keyed by the placeholder name. -/
def prepare_context (parseF : String → Option PyDate) (nowWAT : PyDate)
    (tmpl : TemplateM) (user_inputs : String → Option String) :
    List (String × String) :=
  tmpl.placeholders.map fun ph =>
    let v0 := (user_inputs ph.name).getD (pyOrS ph.default_value "")
    let v1 :=
      if v0 = "" ∧ pyContains ph.name "_instance_" then
        (user_inputs (baseNameOf ph.name)).getD (pyOrS ph.default_value "")
      else v0
    let v2 :=
      if ph.placeholder_type = "date" then
        format_date parseF nowWAT v1 tmpl.type
      else if pyContains (pyLower ph.name) "address" then
        format_address v1 tmpl.type
      else v1
    (ph.name, apply_casing v2 ph.casing)

end DocumentProcessor

/-- Instance naming at ingestion (`admin_upload_template`): a `Counter`
over occurrence names; the first occurrence keeps the bare name, the
`k`-th (`k >= 2`) becomes `name ++ "_instance_" ++ k`. -/
def assignInstanceNames (names : List String) : List String :=
  (names.foldl
    (fun (acc : List String × (String → Nat)) n =>
      let cnt := acc.2 n + 1
      (acc.1 ++ [if cnt = 1 then n else n ++ "_instance_" ++ toString cnt],
       fun m => if m = n then cnt else acc.2 m))
    (([] : List String), (fun _ => 0 : String → Nat))).1

/-- The `CreatedDocument` record fields relevant to generation and batch
bookkeeping. -/
structure DocRecord where
  template_id : Nat
  user_name : String
  batch_id : Option String
  deriving DecidableEq, Repr

namespace DocumentProcessor

/-- Translation of `DocumentProcessor.generate_document`.  The docxtpl
render plus file save is the parameter `render` (returning `none` when it
raises); the persistent store of `CreatedDocument` rows is the explicit
list `st`, returned unchanged when the function raises.  Validation runs
first and raises `ValueError("\n".join(errors))` before any rendering. -/
def generate_document (rmatch : String → String → Bool)
    (parseF : String → Option PyDate) (nowWAT : PyDate)
    (render : List (String × String) → Option Unit)
    (tmpl : TemplateM) (template_id : Nat)
    (user_inputs : String → Option String) (user_name : String)
    (st : List DocRecord) : List DocRecord × Except String DocRecord :=
  let errors := validate_inputs rmatch tmpl.placeholders user_inputs
  if errors = [] then
    match render (prepare_context parseF nowWAT tmpl user_inputs) with
    | none => (st, Except.error "document generation failed")
    | some _ =>
      let rec0 : DocRecord := ⟨template_id, user_name, none⟩
      (st ++ [rec0], Except.ok rec0)
  else
    (st, Except.error (pyJoin "\n" errors))

end DocumentProcessor

/-- The `BatchGeneration` row fields set by `process_batch`. -/
structure BatchGeneration where
  batch_id : String
  user_name : String
  user_email : Option String
  template_ids : List Nat
  total_documents : Nat
  status : String
  successful_documents : Nat
  error_message : Option String
  completed_at : Option Nat
  deriving DecidableEq, Repr

/-- The body of the per-template loop of `process_batch`: a success appends
the document (tagged with the batch id) to the successful list, an error
appends `"Template <id>: <message>"` to the error list. -/
def batchStep (gen : Nat → Except String DocRecord) (batch_id : String)
    (acc : List DocRecord × List String) (tid : Nat) : List DocRecord × List String :=
  match gen tid with
  | Except.ok doc => (acc.1 ++ [{ doc with batch_id := some batch_id }], acc.2)
  | Except.error e =>
    (acc.1, acc.2 ++ ["Template " ++ toString tid ++ ": " ++ e])

/-- Translation of `process_batch`.  Generating one document (the call to
`generate_document` together with its persistence) is the parameter
`gen : template_id → Except errorMessage DocRecord`; `tNow` stands for
`datetime.now(timezone.utc)` at completion. -/
def process_batch (gen : Nat → Except String DocRecord)
    (template_ids : List Nat) (batch_id : String)
    (user_name : String) (user_email : Option String) (tNow : Nat) :
    BatchGeneration × List DocRecord :=
  let batch0 : BatchGeneration :=
    { batch_id := batch_id, user_name := user_name, user_email := user_email,
      template_ids := template_ids, total_documents := template_ids.length,
      status := "processing", successful_documents := 0,
      error_message := none, completed_at := none }
  let res := template_ids.foldl (batchStep gen batch_id) ([], [])
  let successful := res.1
  let errors := res.2
  ({ batch0 with
      successful_documents := successful.length,
      status := if errors = [] then "completed" else "completed_with_errors",
      error_message :=
        if errors = [] then none else some (pyJoin "\n" errors),
      completed_at := some tNow },
   successful)

/-! ## Specification-side definitions

These re-state, independently of the translations above, what the spec or
a claim says; claim theorems compare them with the translated code. -/

/-- There is a placeholder token of the pattern at offset `start` of `s`
with captured name `name`: two opening braces, optional whitespace, a
non-empty word-character name, optional whitespace, two closing braces. -/
def isTokenAt (s : List Char) (start : Nat) (name : List Char) : Prop :=
  ∃ ws1 ws2 rest,
    s.drop start =
      lbraceChar :: lbraceChar ::
        (ws1 ++ name ++ ws2 ++ rbraceChar :: rbraceChar :: rest) ∧
    (∀ c ∈ ws1, isPySpace c = true) ∧
    (∀ c ∈ ws2, isPySpace c = true) ∧
    name ≠ [] ∧
    (∀ c ∈ name, isPyWordChar c = true)

/-- The cumulative text offset of run `i` of a paragraph. -/
def cumPosAt (p : Para) (i : Nat) : Nat :=
  (cumPos (runsText p)).getD i 0

/-- The letter-style address format as the claim words it: split on commas,
trim each segment, drop empty segments, append a comma to every segment
except the last, make the last segment end with a period, rejoin with line
breaks (amended: all-empty segments return the trimmed input, blank input
is returned unchanged). -/
def formatAddressLetterSpec (s : String) : String :=
  if pyStrip s = "" then s
  else
    let segs := ((splitOnChar ',' (pyStrip s).data).map pyStripL).filter (fun l => l ≠ [])
    match segs.getLast? with
    | none => pyStrip s
    | some last =>
      let decorated := (segs.dropLast.map (fun l => l ++ [','])) ++
        [if last.getLast? = some '.' then last else last ++ ['.']]
      ⟨List.intercalate ['\n'] decorated⟩

/-- The affidavit-style address format as amended: trim surrounding
whitespace, then remove the longest trailing run of periods and whitespace
(blank input is returned unchanged). -/
def formatAddressAffidavitSpec (s : String) : String :=
  if pyStrip s = "" then s
  else ⟨(((pyStrip s).data.reverse).dropWhile (fun c => c = '.' || isPySpace c)).reverse⟩

/-- The date rendering the claim describes, per document style. -/
def renderDateSpec (d : PyDate) (style : String) : String :=
  if pyLower style = "letter" then
    DocumentProcessor.ordinal d.day ++ " " ++ monthName d.month ++ ", " ++ toString d.year
  else if pyLower style = "affidavit" then
    DocumentProcessor.ordinal d.day ++ " of " ++ monthName d.month ++ ", " ++ toString d.year
  else
    DocumentProcessor.ordinal d.day ++ " " ++ monthName d.month ++ ", " ++ toString d.year

/-! ## Demo data used by concrete conjuncts and witnesses -/

/-- A parse function agreeing with `dateutil` on the spec's example date. -/
def parseDemo : String → Option PyDate :=
  fun s => if s = "2025-09-22" then some ⟨22, 9, 2025⟩ else none

/-- Demo run: formatted (Arial, 25 half-points, bold) and holding the text
`"Dear {{"` (the token is split across two runs). -/
def demoRun1 : Run := ⟨some ⟨some "Arial", some 25, true, false, false⟩, "Dear \x7b\x7b".data⟩

/-- Demo run with no properties, text `" name }} and {{name}}!"`. -/
def demoRun2 : Run := ⟨none, " name \x7d\x7d and \x7b\x7bname\x7d\x7d!".data⟩

/-- Demo paragraph: the placeholder `name` occurs twice, the first
occurrence starting in the first run. -/
def demoPara : Para := ⟨some "center", [demoRun1, demoRun2]⟩

/-- The spec-level description a membership in the extraction output must
satisfy (claim C2): the occurrence points into a real paragraph, its name
is a genuine placeholder token of the reconstructed paragraph text, the
recorded run index is the run whose cumulative span contains the match
start, and the formatting is read from that run. -/
def extractionSound (doc : List Para) (occ : Occurrence) : Prop :=
  ∃ para start,
    doc.get? occ.paragraph_index = some para ∧
    occ.alignment = para.alignment ∧
    isTokenAt (fullText para) start occ.name ∧
    occ.run_index < para.runs.length ∧
    cumPosAt para occ.run_index ≤ start ∧
    start < cumPosAt para (occ.run_index + 1) ∧
    occ.formatting = fmtOfRun (para.runs.getD occ.run_index dummyRun)

/-- Placeholder rows of the two-occurrence `client` field as ingestion
builds them (smart default `"Enter Client"`, required, casing `none`). -/
def phClient : Ph := ⟨"client", "Client", "text", true, 0, "none", "", "Enter Client"⟩

/-- The second `client` occurrence after instance numbering. -/
def phClient2 : Ph := ⟨"client_instance_2", "Client (Instance 2)", "text", true, 1, "none", "", "Enter Client"⟩

/-- A letter template carrying the duplicated `client` field. -/
def tmplClient : TemplateM := ⟨"letter", [phClient, phClient2]⟩

/-- Raw inputs keyed by base name only, as the generation form posts them. -/
def inputsClient : String → Option String :=
  fun n => if n = "client" then some "Mary" else none

/-- A generator failing exactly on template 2, as used by the batch demo. -/
def genDemo : Nat → Except String DocRecord :=
  fun i => if i = 2 then Except.error "invalid" else Except.ok ⟨i, "u", none⟩

/-! ## Support lemmas: ASCII case mappings -/

theorem charToNatOfNat (n : Nat) (h : n.isValidChar) : (Char.ofNat n).toNat = n := by
  rw [Char.ofNat, dif_pos h]
  rfl

theorem isUpperIffToNat (c : Char) : c.isUpper = true ↔ (65 ≤ c.toNat ∧ c.toNat ≤ 90) := by
  have h1 : ((65 : UInt32) ≤ c.val) ↔ (65 ≤ c.toNat) := by
    rw [UInt32.le_def, BitVec.le_def]
    constructor <;> intro h <;> exact h
  have h2 : (c.val ≤ (90 : UInt32)) ↔ (c.toNat ≤ 90) := by
    rw [UInt32.le_def, BitVec.le_def]
    constructor <;> intro h <;> exact h
  simp only [Char.isUpper, Bool.and_eq_true, decide_eq_true_eq, ge_iff_le]
  rw [h1, h2]

theorem isLowerIffToNat (c : Char) : c.isLower = true ↔ (97 ≤ c.toNat ∧ c.toNat ≤ 122) := by
  have h1 : ((97 : UInt32) ≤ c.val) ↔ (97 ≤ c.toNat) := by
    rw [UInt32.le_def, BitVec.le_def]
    constructor <;> intro h <;> exact h
  have h2 : (c.val ≤ (122 : UInt32)) ↔ (c.toNat ≤ 122) := by
    rw [UInt32.le_def, BitVec.le_def]
    constructor <;> intro h <;> exact h
  simp only [Char.isLower, Bool.and_eq_true, decide_eq_true_eq, ge_iff_le]
  rw [h1, h2]

theorem isAlphaIffToNat (c : Char) :
    c.isAlpha = true ↔ ((65 ≤ c.toNat ∧ c.toNat ≤ 90) ∨ (97 ≤ c.toNat ∧ c.toNat ≤ 122)) := by
  simp only [Char.isAlpha, Bool.or_eq_true, isUpperIffToNat, isLowerIffToNat]

theorem toLowerToNat (c : Char) :
    (Char.toLower c).toNat = if 65 ≤ c.toNat ∧ c.toNat ≤ 90 then c.toNat + 32 else c.toNat := by
  unfold Char.toLower
  by_cases h : c.toNat ≥ 65 ∧ c.toNat ≤ 90
  · rw [if_pos h, if_pos h, charToNatOfNat _ (by constructor; omega)]
  · rw [if_neg h, if_neg h]

theorem toUpperToNat (c : Char) :
    (Char.toUpper c).toNat = if 97 ≤ c.toNat ∧ c.toNat ≤ 122 then c.toNat - 32 else c.toNat := by
  unfold Char.toUpper
  by_cases h : c.toNat ≥ 97 ∧ c.toNat ≤ 122
  · rw [if_pos h, if_pos h, charToNatOfNat _ (by constructor; omega)]
  · rw [if_neg h, if_neg h]

theorem toLowerToLower (c : Char) : (Char.toLower c).toLower = Char.toLower c := by
  apply Char.eq_of_val_eq
  apply UInt32.toNat.inj
  show (Char.toLower (Char.toLower c)).toNat = (Char.toLower c).toNat
  rw [toLowerToNat (Char.toLower c), toLowerToNat c]
  by_cases h : 65 ≤ c.toNat ∧ c.toNat ≤ 90
  · rw [if_pos h, if_neg (by omega)]
  · rw [if_neg h, if_neg h]

theorem toUpperToUpper (c : Char) : (Char.toUpper c).toUpper = Char.toUpper c := by
  apply Char.eq_of_val_eq
  apply UInt32.toNat.inj
  show (Char.toUpper (Char.toUpper c)).toNat = (Char.toUpper c).toNat
  rw [toUpperToNat (Char.toUpper c), toUpperToNat c]
  by_cases h : 97 ≤ c.toNat ∧ c.toNat ≤ 122
  · rw [if_pos h, if_neg (by omega)]
  · rw [if_neg h, if_neg h]

theorem isAlphaToLower (c : Char) : (Char.toLower c).isAlpha = c.isAlpha := by
  rcases hb : c.isAlpha with _ | _
  · rw [Bool.eq_false_iff]
    intro hc
    rw [isAlphaIffToNat, toLowerToNat] at hc
    rw [Bool.eq_false_iff] at hb
    apply hb
    rw [isAlphaIffToNat]
    by_cases h : 65 ≤ c.toNat ∧ c.toNat ≤ 90
    · left
      exact h
    · rw [if_neg h] at hc
      exact hc
  · rw [isAlphaIffToNat] at hb ⊢
    rw [toLowerToNat]
    by_cases h : 65 ≤ c.toNat ∧ c.toNat ≤ 90
    · rw [if_pos h]
      right
      omega
    · rw [if_neg h]
      exact hb

theorem isAlphaToUpper (c : Char) : (Char.toUpper c).isAlpha = c.isAlpha := by
  rcases hb : c.isAlpha with _ | _
  · rw [Bool.eq_false_iff]
    intro hc
    rw [isAlphaIffToNat, toUpperToNat] at hc
    rw [Bool.eq_false_iff] at hb
    apply hb
    rw [isAlphaIffToNat]
    by_cases h : 97 ≤ c.toNat ∧ c.toNat ≤ 122
    · right
      exact h
    · rw [if_neg h] at hc
      exact hc
  · rw [isAlphaIffToNat] at hb ⊢
    rw [toUpperToNat]
    by_cases h : 97 ≤ c.toNat ∧ c.toNat ≤ 122
    · rw [if_pos h]
      left
      omega
    · rw [if_neg h]
      exact hb

/-! ## Claim C9: idempotence of `apply_casing` -/

theorem pyTitleAux_idem (l : List Char) :
    ∀ b, pyTitleAux b (pyTitleAux b l) = pyTitleAux b l := by
  induction l with
  | nil => intro b; rfl
  | cons c rest ih =>
    intro b
    rcases hc : c.isAlpha with _ | _
    · simp only [pyTitleAux, hc, Bool.false_eq_true, if_false, ih false]
    · rcases b with _ | _
      · simp only [pyTitleAux, hc, if_true, Bool.false_eq_true, if_false,
          isAlphaToUpper, toUpperToUpper, ih true]
      · simp only [pyTitleAux, hc, if_true, isAlphaToLower, toLowerToLower, ih true]

theorem pyUpper_idem (s : String) : pyUpper (pyUpper s) = pyUpper s := by
  simp only [pyUpper, List.map_map]
  congr 1
  apply List.map_congr_left
  intro c _
  exact toUpperToUpper c

theorem pyLower_idem (s : String) : pyLower (pyLower s) = pyLower s := by
  simp only [pyLower, List.map_map]
  congr 1
  apply List.map_congr_left
  intro c _
  exact toLowerToLower c

theorem pyTitle_idem (s : String) : pyTitle (pyTitle s) = pyTitle s := by
  simp only [pyTitle]
  congr 1
  exact pyTitleAux_idem s.data false

/-- Claim C9: for every string `v` and every casing mode `m`,
`apply_casing` is idempotent: applying it twice equals applying it once
(this holds for the modes `none`, `upper`, `lower`, `title`, and indeed
for any mode string, since unknown modes act as the identity). -/
theorem c9_apply_casing_idempotent (v m : String) :
    DocumentProcessor.apply_casing (DocumentProcessor.apply_casing v m) m =
      DocumentProcessor.apply_casing v m := by
  unfold DocumentProcessor.apply_casing
  by_cases h1 : m = "upper"
  · simp only [h1, if_true]
    exact pyUpper_idem v
  · by_cases h2 : m = "lower"
    · simp only [h1, h2, if_false, if_true]
      exact pyLower_idem v
    · by_cases h3 : m = "title"
      · simp only [h1, h2, h3, if_false, if_true]
        exact pyTitle_idem v
      · simp only [h1, h2, h3, if_false]

/-- Witness for C9 at a concrete input. -/
theorem c9_apply_casing_idempotent_witness :
    DocumentProcessor.apply_casing
        (DocumentProcessor.apply_casing "mixEd cAse" "title") "title" =
      DocumentProcessor.apply_casing "mixEd cAse" "title" :=
  c9_apply_casing_idempotent "mixEd cAse" "title"

/-! ## Support lemmas: the ordinal-suffix substitution -/

theorem subOrd_cons_nonDigit (c : Char) (l : List Char) (h : c.isDigit = false) :
    subOrdinals (c :: l) = c :: subOrdinals l := by
  rcases l with _ | ⟨a, _ | ⟨b, r⟩⟩
  · rfl
  · rfl
  · simp only [subOrdinals, h, Bool.false_and, Bool.false_eq_true, if_false]

theorem subOrd_headOpt (l : List Char) : (subOrdinals l).head? = l.head? := by
  rcases l with _ | ⟨c, _ | ⟨a, _ | ⟨b, r⟩⟩⟩
  · rfl
  · rfl
  · rfl
  · simp only [subOrdinals]
    split <;> rfl

theorem wordBoundaryAfter_of_head (l : List Char) (w : Char) (h : l.head? = some w) :
    wordBoundaryAfter l = !isPyWordChar w := by
  rcases l with _ | ⟨x, xs⟩
  · simp at h
  · simp only [List.head?_cons, Option.some.injEq] at h
    subst h
    rfl

theorem isSuffixPair_cases (a b : Char) (h : isSuffixPair a b = true) :
    (a = 'T' ∧ b = 'h') ∨ (a = 'S' ∧ b = 't') ∨ (a = 'N' ∧ b = 'd') ∨ (a = 'R' ∧ b = 'd') := by
  simp only [isSuffixPair, Bool.or_eq_true, Bool.and_eq_true, decide_eq_true_eq] at h
  tauto

theorem subOrd_idem (l : List Char) : subOrdinals (subOrdinals l) = subOrdinals l := by
  induction l using subOrdinals.induct with
  | case1 => rfl
  | case2 c a b r2 hcond ih =>
    simp only [subOrdinals, hcond, if_true]
    have hab := isSuffixPair_cases a b (by
      simp only [Bool.and_eq_true] at hcond
      exact hcond.1.2)
    -- second pass: the lowered suffix no longer matches, and the lowered
    -- characters are not digits
    have hpair : isSuffixPair a.toLower b.toLower = false := by
      rcases hab with ⟨ha, hb⟩ | ⟨ha, hb⟩ | ⟨ha, hb⟩ | ⟨ha, hb⟩ <;>
        subst ha <;> subst hb <;> decide
    have hda : (a.toLower).isDigit = false := by
      rcases hab with ⟨ha, _⟩ | ⟨ha, _⟩ | ⟨ha, _⟩ | ⟨ha, _⟩ <;> subst ha <;> decide
    have hdb : (b.toLower).isDigit = false := by
      rcases hab with ⟨_, hb⟩ | ⟨_, hb⟩ | ⟨_, hb⟩ | ⟨_, hb⟩ <;> subst hb <;> decide
    simp only [hpair, Bool.and_false, Bool.false_and, Bool.false_eq_true, if_false]
    rw [subOrd_cons_nonDigit _ _ hda, subOrd_cons_nonDigit _ _ hdb, ih]
  | case3 c a b r2 hcond ih =>
    simp only [subOrdinals, hcond, Bool.false_eq_true, if_false]
    rcases hdc : c.isDigit with _ | _
    · rw [subOrd_cons_nonDigit _ _ hdc, ih]
    · -- c is a digit but the pair/boundary condition failed; it fails again
      -- on the rewritten tail
      have hfail : (isSuffixPair a b && wordBoundaryAfter r2) = false := by
        simpa [hdc] using hcond
      rcases hL : subOrdinals (a :: b :: r2) with _ | ⟨x, _ | ⟨y, t⟩⟩
      · rfl
      · rfl
      · have hx : x = a := by
          have := subOrd_headOpt (a :: b :: r2)
          rw [hL] at this
          simp only [List.head?_cons, Option.some.injEq] at this
          exact this
        subst hx
        have hnomatch : (isSuffixPair x y && wordBoundaryAfter t) = false := by
          rcases hda : x.isDigit with _ | _
          · -- x = a is not a digit, so the tail shape is known
            rw [subOrd_cons_nonDigit _ _ hda] at hL
            have hyt : subOrdinals (b :: r2) = y :: t := by
              simpa using hL
            have hy : y = b := by
              have := subOrd_headOpt (b :: r2)
              rw [hyt] at this
              simp only [List.head?_cons, Option.some.injEq] at this
              exact this
            subst hy
            rcases hp : isSuffixPair x y with _ | _
            · rw [Bool.false_and]
            · -- the pair matched, so the boundary must have failed; the
              -- boundary character is preserved by the substitution
              have hbd : wordBoundaryAfter r2 = false := by
                rw [hp, Bool.true_and] at hfail
                exact hfail
              have hdb : y.isDigit = false := by
                rcases isSuffixPair_cases x y hp with ⟨_, hb⟩ | ⟨_, hb⟩ | ⟨_, hb⟩ | ⟨_, hb⟩ <;>
                  subst hb <;> decide
              rw [subOrd_cons_nonDigit _ _ hdb] at hyt
              have ht : t = subOrdinals r2 := by
                simpa using hyt.symm
              rcases hr2 : r2 with _ | ⟨w, r3⟩
              · rw [hr2] at hbd
                simp [wordBoundaryAfter] at hbd
              · have hw : isPyWordChar w = true := by
                  rw [hr2] at hbd
                  simp only [wordBoundaryAfter, Bool.not_eq_false'] at hbd
                  exact hbd
                have hth : t.head? = some w := by
                  rw [ht, subOrd_headOpt, hr2]
                  rfl
                rw [wordBoundaryAfter_of_head t w hth, hw]
                simp
          · have : isSuffixPair x y = false := by
              rcases hps : isSuffixPair x y with _ | _
              · rfl
              · rcases isSuffixPair_cases x y hps with ⟨hc1, _⟩ | ⟨hc1, _⟩ | ⟨hc1, _⟩ | ⟨hc1, _⟩ <;>
                  rw [hc1] at hda <;> simp at hda
            rw [this, Bool.false_and]
        simp only [subOrdinals, hdc, hnomatch, Bool.true_and, Bool.false_eq_true, if_false]
        rw [← hL, ih, hL]
  | case4 c rest h ih =>
    rcases rest with _ | ⟨d, _ | ⟨e, r⟩⟩
    · rfl
    · rfl
    · exact absurd rfl (h d e r)

theorem subOrd_forall2 (l : List Char) :
    List.Forall₂ (fun a b => b = a ∨ b = a.toLower) l (subOrdinals l) := by
  induction l using subOrdinals.induct with
  | case1 => exact List.Forall₂.nil
  | case2 c a b r2 hcond ih =>
    simp only [subOrdinals, hcond, if_true]
    exact List.Forall₂.cons (Or.inl rfl)
      (List.Forall₂.cons (Or.inr rfl) (List.Forall₂.cons (Or.inr rfl) ih))
  | case3 c a b r2 hcond ih =>
    simp only [subOrdinals, hcond, Bool.false_eq_true, if_false]
    exact List.Forall₂.cons (Or.inl rfl) ih
  | case4 c rest h ih =>
    rcases rest with _ | ⟨d, _ | ⟨e, r⟩⟩
    · exact List.Forall₂.cons (Or.inl rfl) List.Forall₂.nil
    · exact List.Forall₂.cons (Or.inl rfl) (List.Forall₂.cons (Or.inl rfl) List.Forall₂.nil)
    · exact absurd rfl (h d e r)

/-! ## Claim C8: ordinal-casing normalisation -/

/-- Claim C8: `fix_date_ordinal_casing` leaves entirely-upper-case strings
unchanged (in particular `"19TH SEPTEMBER"`); otherwise it only lower-cases
characters (each output character is the input character or its lower-case
form), turning `"19Th September"` into `"19th September"`. -/
theorem c8_ordinal_casing :
    (∀ s : String, pyIsUpperL s.data = true → fix_date_ordinal_casing s = s) ∧
    (∀ s : String,
      List.Forall₂ (fun a b => b = a ∨ b = a.toLower) s.data
        (fix_date_ordinal_casing s).data) ∧
    fix_date_ordinal_casing "19Th September" = "19th September" ∧
    fix_date_ordinal_casing "19TH SEPTEMBER" = "19TH SEPTEMBER" := by
  refine ⟨fun s h => by simp [fix_date_ordinal_casing, h], fun s => ?_, by decide, by decide⟩
  unfold fix_date_ordinal_casing
  by_cases h : pyIsUpperL s.data = true
  · simp only [h, if_true]
    rw [List.forall₂_same]
    intro a _
    exact Or.inl rfl
  · simp only [h, if_false]
    exact subOrd_forall2 s.data

/-- Witness for C8 at the upper-case example. -/
theorem c8_ordinal_casing_witness :
    fix_date_ordinal_casing "19TH SEPTEMBER" = "19TH SEPTEMBER" :=
  c8_ordinal_casing.1 "19TH SEPTEMBER" (by decide)

/-! ## Claim C10: idempotence of `fix_date_ordinal_casing` -/

/-- Claim C10: `fix_date_ordinal_casing` is idempotent: the substitution
only produces lower-case suffixes, which the capitalised pattern no longer
matches, and the fully-upper-case branch is the identity. -/
theorem c10_fix_ordinal_casing_idempotent (s : String) :
    fix_date_ordinal_casing (fix_date_ordinal_casing s) = fix_date_ordinal_casing s := by
  have hdata : ∀ l : List Char, (String.mk l).data = l := fun _ => rfl
  unfold fix_date_ordinal_casing
  rcases h : pyIsUpperL s.data with _ | _
  · simp only [h, Bool.false_eq_true, if_false, hdata]
    rcases h2 : pyIsUpperL (subOrdinals s.data) with _ | _
    · simp only [h2, Bool.false_eq_true, if_false, subOrd_idem]
    · simp only [h2, if_true]
  · simp only [h, if_true]

/-! ## Claim C4: `format_date` -/

/-- Claim C4: blank input substitutes the current West-Africa time; an
unparseable non-blank input is returned unchanged; a parsed date renders
as `"<ordinal day> <Month>, <year>"` for the letter style and
`"<ordinal day> of <Month>, <year>"` for the affidavit style; the ordinal
suffix is `th` for remainders 11-13 mod 100, else `st`/`nd`/`rd` for final
digit 1/2/3, else `th`; in particular `"2025-09-22"` renders as
`"22nd September, 2025"` and `"22nd of September, 2025"`. -/
theorem c4_format_date :
    (∀ (parseF : String → Option PyDate) (nowWAT : PyDate) (s t : String),
        pyStrip s = "" →
        DocumentProcessor.format_date parseF nowWAT s t = renderDateSpec nowWAT t) ∧
    (∀ (parseF : String → Option PyDate) (nowWAT : PyDate) (s t : String),
        pyStrip s ≠ "" → parseF s = none →
        DocumentProcessor.format_date parseF nowWAT s t = s) ∧
    (∀ (parseF : String → Option PyDate) (nowWAT : PyDate) (s t : String) (d : PyDate),
        pyStrip s ≠ "" → parseF s = some d →
        DocumentProcessor.format_date parseF nowWAT s t = renderDateSpec d t) ∧
    (∀ n : Nat, DocumentProcessor.ordinal n =
        toString n ++
          (if 11 ≤ n % 100 ∧ n % 100 ≤ 13 then "th"
           else if n % 10 = 1 then "st"
           else if n % 10 = 2 then "nd"
           else if n % 10 = 3 then "rd"
           else "th")) ∧
    (∀ (parseF : String → Option PyDate) (nowWAT : PyDate),
        parseF "2025-09-22" = some ⟨22, 9, 2025⟩ →
        DocumentProcessor.format_date parseF nowWAT "2025-09-22" "letter" =
            "22nd September, 2025" ∧
        DocumentProcessor.format_date parseF nowWAT "2025-09-22" "affidavit" =
            "22nd of September, 2025") := by
  have hblank : ∀ (parseF : String → Option PyDate) (nowWAT : PyDate) (s t : String),
      pyStrip s = "" →
      DocumentProcessor.format_date parseF nowWAT s t = renderDateSpec nowWAT t := by
    intro parseF nowWAT s t h
    unfold DocumentProcessor.format_date
    rw [if_pos (Or.inr h)]
    rfl
  have hsome : ∀ (parseF : String → Option PyDate) (nowWAT : PyDate) (s t : String) (d : PyDate),
      pyStrip s ≠ "" → parseF s = some d →
      DocumentProcessor.format_date parseF nowWAT s t = renderDateSpec d t := by
    intro parseF nowWAT s t d h hp
    have hne : s ≠ "" := by
      intro he
      exact h (by rw [he]; rfl)
    unfold DocumentProcessor.format_date
    rw [if_neg (by
      intro hor
      rcases hor with h1 | h2
      · exact hne h1
      · exact h h2)]
    rw [hp]
    rfl
  refine ⟨hblank, ?_, hsome, ?_, ?_⟩
  · intro parseF nowWAT s t h hp
    have hne : s ≠ "" := by
      intro he
      exact h (by rw [he]; rfl)
    unfold DocumentProcessor.format_date
    rw [if_neg (by
      intro hor
      rcases hor with h1 | h2
      · exact hne h1
      · exact h h2)]
    rw [hp]
  · intro n
    unfold DocumentProcessor.ordinal
    by_cases h13 : 11 ≤ n % 100 ∧ n % 100 ≤ 13
    · rw [if_pos h13, if_pos h13]
    · rw [if_neg h13, if_neg h13]
      have h10 : n % 10 = 0 ∨ n % 10 = 1 ∨ n % 10 = 2 ∨ n % 10 = 3 ∨ n % 10 = 4 ∨
          n % 10 = 5 ∨ n % 10 = 6 ∨ n % 10 = 7 ∨ n % 10 = 8 ∨ n % 10 = 9 := by
        omega
      rcases h10 with h|h|h|h|h|h|h|h|h|h <;> rw [h] <;> rfl
  · intro parseF nowWAT hp
    constructor
    · rw [hsome parseF nowWAT "2025-09-22" "letter" ⟨22, 9, 2025⟩ (by decide) hp]
      decide
    · rw [hsome parseF nowWAT "2025-09-22" "affidavit" ⟨22, 9, 2025⟩ (by decide) hp]
      decide

/-- Witness for C4: the two concrete example renderings via `parseDemo`. -/
theorem c4_format_date_witness :
    DocumentProcessor.format_date parseDemo ⟨1, 1, 2000⟩ "2025-09-22" "letter" =
        "22nd September, 2025" ∧
    DocumentProcessor.format_date parseDemo ⟨1, 1, 2000⟩ "2025-09-22" "affidavit" =
        "22nd of September, 2025" :=
  c4_format_date.2.2.2.2 parseDemo ⟨1, 1, 2000⟩ (by decide)

/-! ## Support lemmas and claim C5: `format_address` -/

theorem mkStringNeEmpty (u : List Char) : ((⟨u⟩ : String) ≠ "") ↔ u ≠ [] := by
  simp [String.ext_iff]

theorem mapMkFilter (l : List (List Char)) :
    ((l.map (fun u => (⟨u⟩ : String))).filter (fun x => x ≠ "")) =
      (l.filter (fun u => u ≠ [])).map (fun u => (⟨u⟩ : String)) := by
  induction l with
  | nil => rfl
  | cons u us ih =>
    simp only [List.map_cons, List.filter_cons]
    by_cases hu : u = []
    · subst hu
      rw [if_neg (by simp [String.ext_iff]), if_neg (by simp)]
      exact ih
    · rw [if_pos (by simp [String.ext_iff, hu]), if_pos (by simp [hu])]
      simp only [List.map_cons, ih]

theorem commaAllBut (init : List (List Char)) (last : List Char) :
    commaAllButLast ((init ++ [last]).map (fun u => (⟨u⟩ : String))) =
      init.map (fun u => (⟨u ++ [',']⟩ : String)) ++
        [⟨if last.getLast? = some '.' then last else last ++ ['.']⟩] := by
  induction init with
  | nil =>
    simp only [List.nil_append, List.map_cons, List.map_nil]
    show commaAllButLast [⟨last⟩] = _
    simp only [commaAllButLast]
    congr 1
    rcases hl : last.getLast? with _ | d
    · simp only [pyEndsWith, hl]
      rw [if_neg (by simp), if_neg (by simp [hl])]
      rfl
    · by_cases hd : d = '.'
      · subst hd
        simp only [pyEndsWith, hl]
        rw [if_pos (by simp), if_pos (by simp [hl])]
      · simp only [pyEndsWith, hl]
        rw [if_neg (by simp [hd]), if_neg (by simp [hl, hd])]
        rfl
  | cons v vs ih =>
    have hshape : ∃ w ws, (vs ++ [last]).map (fun u => (⟨u⟩ : String)) = w :: ws := by
      rcases vs with _ | ⟨a, as⟩
      · exact ⟨⟨last⟩, [], rfl⟩
      · exact ⟨⟨a⟩, _, rfl⟩
    rcases hshape with ⟨w, ws, hw⟩
    simp only [List.cons_append, List.map_cons, hw]
    show commaAllButLast (⟨v⟩ :: w :: ws) = _
    simp only [commaAllButLast]
    rw [← hw, ih]
    rfl

theorem joinWith_intercalate (sep : List Char) (l : List (List Char)) :
    joinWith sep l = List.intercalate sep l := by
  induction l with
  | nil => rfl
  | cons u us ih =>
    rcases us with _ | ⟨v, vs⟩
    · simp [joinWith, List.intercalate, List.intersperse]
    · show u ++ sep ++ joinWith sep (v :: vs) = _
      rw [ih]
      show u ++ sep ++ List.intercalate sep (v :: vs) = List.intercalate sep (u :: v :: vs)
      simp only [List.intercalate, List.intersperse, List.flatten_cons, List.append_assoc]

theorem headOpt_dropWhile (q : Char → Bool) (m : List Char) (w : Char)
    (h : (m.dropWhile q).head? = some w) : q w = false := by
  induction m with
  | nil => simp [List.dropWhile] at h
  | cons c rest ih =>
    rw [List.dropWhile_cons] at h
    by_cases hq : q c = true
    · rw [if_pos hq] at h
      exact ih h
    · rw [if_neg hq] at h
      simp only [List.head?_cons, Option.some.injEq] at h
      subst h
      simpa using hq

theorem dropWhile_dropWhile_subset (p q : Char → Bool)
    (himp : ∀ c, q c = true → p c = true) (l : List Char) :
    (l.dropWhile q).dropWhile p = l.dropWhile p := by
  induction l with
  | nil => rfl
  | cons c rest ih =>
    rcases hq : q c with _ | _
    · simp only [List.dropWhile_cons, hq, Bool.false_eq_true, if_false]
    · have hp : p c = true := himp c hq
      simp only [List.dropWhile_cons, hq, hp, if_true, ih]

theorem stripFuel_eq (fuel : Nat) : ∀ l : List Char, l.length ≤ fuel →
    (∀ w, l.head? = some w → isPySpace w = false) →
    stripDotsRevFuel fuel l = l.dropWhile (fun c => decide (c = '.') || isPySpace c) := by
  induction fuel with
  | zero =>
    intro l hl _
    have : l = [] := by
      rcases l with _ | _
      · rfl
      · simp at hl
    subst this
    rfl
  | succ n ih =>
    intro l hl hw
    rcases l with _ | ⟨c, rest⟩
    · rfl
    · by_cases hc : c = '.'
      · subst hc
        show stripDotsRevFuel n (rest.dropWhile isPySpace) = _
        rw [ih (rest.dropWhile isPySpace)
            (le_trans (List.dropWhile_sublist isPySpace).length_le (by simpa using hl))
            (fun w hwh => headOpt_dropWhile isPySpace rest w hwh)]
        rw [dropWhile_dropWhile_subset _ isPySpace
            (fun c hq => by simp [hq])]
        simp [List.dropWhile_cons]
      · have hcw : isPySpace c = false := hw c rfl
        show (if c = '.' then _ else c :: rest) = _
        rw [if_neg hc]
        rw [List.dropWhile_cons, if_neg (by simp [hc, hcw])]

theorem stripDotsRev_eq (l : List Char)
    (hw : ∀ w, l.head? = some w → isPySpace w = false) :
    stripDotsRev l = l.dropWhile (fun c => decide (c = '.') || isPySpace c) :=
  stripFuel_eq l.length l le_rfl hw

theorem pyStripL_reverse (l : List Char) :
    (pyStripL l).reverse = ((l.dropWhile isPySpace).reverse).dropWhile isPySpace := by
  simp [pyStripL, List.reverse_reverse]

/-- Claim C5 as stated fails on the affidavit branch: on a non-empty input
with no trailing period the claim predicts the value is returned unchanged,
but the code first strips the surrounding whitespace (exposing and then
removing the period). -/
theorem c5_affidavit_strip_counterexample :
    " 24 Ave. " ≠ "" ∧ pyEndsWith " 24 Ave. " '.' = false ∧
    DocumentProcessor.format_address " 24 Ave. " "affidavit" = "24 Ave" := by
  refine ⟨by decide, by decide, by decide⟩

/-- Claim C5 as amended: for every non-empty address, the letter style
splits on commas, trims each segment, drops empty segments, appends a comma
to all segments but the last, makes the last end with a period and rejoins
with line breaks (whitespace-only input, or input whose segments all trim
to empty, is returned as is, trimmed in the latter case); the affidavit
style trims surrounding whitespace and then removes the longest trailing
run of periods and whitespace.  The concrete letter example of the claim
holds. -/
theorem c5_format_address_amended :
    (∀ s : String, s ≠ "" →
        DocumentProcessor.format_address s "letter" = formatAddressLetterSpec s ∧
        DocumentProcessor.format_address s "affidavit" = formatAddressAffidavitSpec s) ∧
    DocumentProcessor.format_address "24 Ave, Osato Junction, Benin City" "letter" =
      "24 Ave,\nOsato Junction,\nBenin City." := by
  constructor
  · intro s hs
    constructor
    · unfold DocumentProcessor.format_address formatAddressLetterSpec
      by_cases hblank : pyStrip s = ""
      · rw [if_pos (Or.inr hblank), if_pos hblank]
      · rw [if_neg (by
            intro hor
            rcases hor with h1 | h2
            · exact hs h1
            · exact hblank h2),
          if_neg hblank]
        rw [if_pos (by decide)]
        dsimp only
        rw [mapMkFilter]
        rcases List.eq_nil_or_concat
            (((splitOnChar ',' (pyStrip s).data).map pyStripL).filter (fun l => l ≠ []))
          with hnil | ⟨init, last, hcat⟩
        · rw [hnil]
          simp
        · rw [List.concat_eq_append] at hcat
          rw [hcat]
          rw [show (init ++ [last]).getLast? = some last from List.getLast?_concat _]
          rw [List.isEmpty_eq_false.mpr (by simp)]
          simp only [Bool.false_eq_true, if_false]
          rw [show (init ++ [last]).dropLast = init from List.dropLast_concat]
          rw [commaAllBut]
          unfold pyJoin
          congr 1
          rw [show ((init.map fun u => (⟨u ++ [',']⟩ : String)) ++
              [(⟨if last.getLast? = some '.' then last else last ++ ['.']⟩ : String)]).map
                String.data =
              (init.map fun l => l ++ [',']) ++
                [if last.getLast? = some '.' then last else last ++ ['.']] from by
            simp [List.map_map, Function.comp]]
          rw [joinWith_intercalate]
    · unfold DocumentProcessor.format_address formatAddressAffidavitSpec
      by_cases hblank : pyStrip s = ""
      · rw [if_pos (Or.inr hblank), if_pos hblank]
      · rw [if_neg (by
            intro hor
            rcases hor with h1 | h2
            · exact hs h1
            · exact hblank h2),
          if_neg hblank]
        rw [if_neg (by decide), if_pos (by decide)]
        congr 1
        rw [stripDotsRev_eq]
        intro w hwh
        have hrev : (pyStrip s).data.reverse =
            ((s.data.dropWhile isPySpace).reverse).dropWhile isPySpace := by
          show (pyStripL s.data).reverse = _
          exact pyStripL_reverse s.data
        rw [hrev] at hwh
        exact headOpt_dropWhile isPySpace _ w hwh
  · decide

/-- Witness for the amended C5 at a concrete input. -/
theorem c5_format_address_amended_witness :
    DocumentProcessor.format_address " 24 Ave. " "affidavit" =
      formatAddressAffidavitSpec " 24 Ave. " :=
  (c5_format_address_amended.1 " 24 Ave. " (by decide)).2

/-! ## Support lemmas and claim C6: `validate_inputs` -/

theorem pyMinSort_mem : ∀ (rest : List Ph) (p : Ph),
    rest.foldl (fun best q => if q.sort_order < best.sort_order then q else best) p ∈ p :: rest := by
  intro rest
  induction rest with
  | nil => intro p; exact List.mem_singleton.mpr rfl
  | cons q qs ih =>
    intro p
    simp only [List.foldl_cons]
    have h := ih (if q.sort_order < p.sort_order then q else p)
    rcases List.mem_cons.mp h with h1 | h1
    · rw [h1]
      by_cases hq : q.sort_order < p.sort_order
      · rw [if_pos hq]
        exact List.mem_cons_of_mem _ (List.mem_cons_self _ _)
      · rw [if_neg hq]
        exact List.mem_cons_self _ _
    · exact List.mem_cons_of_mem _ (List.mem_cons_of_mem _ h1)

theorem pyMinSort_le : ∀ (rest : List Ph) (p q : Ph), q ∈ p :: rest →
    (rest.foldl (fun best r => if r.sort_order < best.sort_order then r else best) p).sort_order ≤
      q.sort_order := by
  intro rest
  induction rest with
  | nil =>
    intro p q hq
    rcases List.mem_cons.mp hq with h | h
    · rw [h]
      exact le_refl _
    · simp at h
  | cons r rs ih =>
    intro p q hq
    simp only [List.foldl_cons]
    have hstep : (if r.sort_order < p.sort_order then r else p).sort_order ≤ p.sort_order ∧
        (if r.sort_order < p.sort_order then r else p).sort_order ≤ r.sort_order := by
      by_cases hr : r.sort_order < p.sort_order
      · rw [if_pos hr]
        exact ⟨le_of_lt hr, le_refl _⟩
      · rw [if_neg hr]
        exact ⟨le_refl _, le_of_not_lt hr⟩
    rcases List.mem_cons.mp hq with h | h
    · rw [h]
      exact le_trans (ih _ _ (List.mem_cons_self _ _)) hstep.1
    · rcases List.mem_cons.mp h with h2 | h2
      · rw [h2]
        exact le_trans (ih _ _ (List.mem_cons_self _ _)) hstep.2
      · exact ih _ _ (List.mem_cons_of_mem _ h2)

/-- Claim C6: validation groups catalog rows by base name and looks one raw
value up per group; a group with a required member and a blank value
contributes exactly the single message `"<displayName> is required"` taken
from a member of minimal sort order; a group with a non-blank value
contributes `"<displayName> is invalid"` for exactly the members whose
pattern fails on the value; a group with no required member and a blank
value contributes nothing; and the result is empty exactly when every
group contributes nothing.  The pure model mutates neither the catalog nor
the inputs. -/
theorem c6_validate_inputs :
    (∀ (rmatch : String → String → Bool) (phs : List Ph)
        (inputs : String → Option String),
        DocumentProcessor.validate_inputs rmatch phs inputs =
          (groupKeys phs).flatMap (DocumentProcessor.groupValidation rmatch phs inputs)) ∧
    (∀ (rmatch : String → String → Bool) (phs : List Ph)
        (inputs : String → Option String) (b : String),
        pyStrip ((inputs b).getD "") = "" →
        (groupOf phs b).any (fun ph => ph.is_required) = true →
        ∃ ph, ph ∈ groupOf phs b ∧
          (∀ q ∈ groupOf phs b, ph.sort_order ≤ q.sort_order) ∧
          DocumentProcessor.groupValidation rmatch phs inputs b =
            [pyOrS ph.display_name b ++ " is required"]) ∧
    (∀ (rmatch : String → String → Bool) (phs : List Ph)
        (inputs : String → Option String) (b : String),
        pyStrip ((inputs b).getD "") ≠ "" →
        DocumentProcessor.groupValidation rmatch phs inputs b =
          (groupOf phs b).filterMap fun ph =>
            if ph.validation_pattern ≠ "" ∧
                rmatch ph.validation_pattern ((inputs b).getD "") = false then
              some (pyOrS ph.display_name b ++ " is invalid")
            else none) ∧
    (∀ (rmatch : String → String → Bool) (phs : List Ph)
        (inputs : String → Option String) (b : String),
        pyStrip ((inputs b).getD "") = "" →
        (groupOf phs b).all (fun ph => !ph.is_required) = true →
        DocumentProcessor.groupValidation rmatch phs inputs b = []) ∧
    (∀ (rmatch : String → String → Bool) (phs : List Ph)
        (inputs : String → Option String),
        DocumentProcessor.validate_inputs rmatch phs inputs = [] ↔
          ∀ b ∈ groupKeys phs, DocumentProcessor.groupValidation rmatch phs inputs b = []) := by
  refine ⟨fun _ _ _ => rfl, ?_, ?_, ?_, ?_⟩
  · intro rmatch phs inputs b hblank hreq
    have hne : groupOf phs b ≠ [] := by
      intro he
      rw [he] at hreq
      simp at hreq
    rcases hgrp : groupOf phs b with _ | ⟨p, rest⟩
    · exact absurd hgrp hne
    · refine ⟨pyMinSort (p :: rest), ?_, ?_, ?_⟩
      · exact pyMinSort_mem rest p
      · intro q hqmem
        exact pyMinSort_le rest p q hqmem
      · unfold DocumentProcessor.groupValidation
        dsimp only
        rw [hgrp] at hreq
        rw [hgrp]
        rw [if_pos (by rw [hreq, hblank]; rfl)]
        rw [if_neg (by simp [hblank])]
        rw [List.append_nil]
  · intro rmatch phs inputs b hval
    unfold DocumentProcessor.groupValidation
    dsimp only
    rw [if_neg (by
        intro hand
        rcases Bool.and_eq_true _ _ |>.mp hand with ⟨_, h2⟩
        exact hval (by simpa using h2)),
      if_pos (by simpa using hval)]
    rw [List.nil_append]
    apply List.filterMap_congr
    intro ph _
    by_cases h1 : ph.validation_pattern = ""
    · rw [if_neg (by simp [h1]), if_neg (by simp [h1])]
    · rcases h2 : rmatch ph.validation_pattern ((inputs b).getD "") with _ | _
      · rw [if_pos (by simp [h1, h2]), if_pos (by simp [h1, h2])]
      · rw [if_neg (by simp [h1, h2]), if_neg (by simp [h2])]
  · intro rmatch phs inputs b hblank hnone
    unfold DocumentProcessor.groupValidation
    dsimp only
    rw [if_neg (by
        intro hand
        rcases Bool.and_eq_true _ _ |>.mp hand with ⟨h1, _⟩
        rcases List.any_eq_true.mp h1 with ⟨ph, hmem, hphr⟩
        have := List.all_eq_true.mp hnone ph hmem
        simp [hphr] at this),
      if_neg (by simp [hblank])]
    rfl
  · intro rmatch phs inputs
    exact List.flatMap_eq_nil_iff

/-- Witness for C6: the duplicated required `client` field with no input
yields one required-message derived from the least-sort-order member. -/
theorem c6_validate_inputs_witness :
    ∃ ph, ph ∈ groupOf [phClient, phClient2] "client" ∧
      (∀ q ∈ groupOf [phClient, phClient2] "client", ph.sort_order ≤ q.sort_order) ∧
      DocumentProcessor.groupValidation (fun _ _ => false) [phClient, phClient2]
          (fun _ => none) "client" =
        [pyOrS ph.display_name "client" ++ " is required"] :=
  c6_validate_inputs.2.1 (fun _ _ => false) [phClient, phClient2] (fun _ => none) "client"
    (by decide) (by decide)

/-! ## Support lemmas and claims C1, C7: batch processing and the generation error path -/

theorem batchFold_spec (gen : Nat → Except String DocRecord) (bid : String) :
    ∀ (ids : List Nat) (acc : List DocRecord × List String),
      ids.foldl (batchStep gen bid) acc =
        (acc.1 ++ ids.filterMap
            (fun i => (gen i).toOption.map (fun d => { d with batch_id := some bid })),
         acc.2 ++ ids.filterMap
            (fun i => match gen i with
              | Except.ok _ => none
              | Except.error e => some ("Template " ++ toString i ++ ": " ++ e))) := by
  intro ids
  induction ids with
  | nil =>
    intro acc
    simp
  | cons i rest ih =>
    intro acc
    rw [List.foldl_cons, ih]
    rcases hg : gen i with e | d
    · simp [batchStep, hg, List.filterMap_cons, Except.toOption]
    · simp [batchStep, hg, List.filterMap_cons, Except.toOption]

theorem lengthFilterMapOk (gen : Nat → Except String DocRecord) (bid : String)
    (ids : List Nat) :
    (ids.filterMap
        (fun i => (gen i).toOption.map (fun d => { d with batch_id := some bid }))).length =
      (ids.filter (fun i => (gen i).toOption.isSome)).length := by
  induction ids with
  | nil => rfl
  | cons i rest ih =>
    rcases hg : gen i with e | d
    · have h1 : (gen i).toOption = none := by rw [hg]; rfl
      rw [List.filterMap_cons, List.filter_cons, h1]
      simp [ih]
    · have h1 : (gen i).toOption = some d := by rw [hg]; rfl
      rw [List.filterMap_cons, List.filter_cons, h1]
      simp [ih]

/-- Claim C1: a batch attempts every template in input order; a failing
item contributes a `"Template <id>: <message>"` entry and never aborts the
batch; afterwards `successful_documents` counts exactly the items that
generated without error, the status is `completed` exactly when the error
list is empty and `completed_with_errors` otherwise, and the completion
time is stamped.  For the batch `[valid, invalid, valid]` the result has
2 successes, 1 per-item error and status `completed_with_errors`. -/
theorem c1_process_batch_isolation :
    (∀ (gen : Nat → Except String DocRecord) (ids : List Nat) (bid uname : String)
        (email : Option String) (tNow : Nat),
        (process_batch gen ids bid uname email tNow).1.successful_documents =
            (ids.filter (fun i => (gen i).toOption.isSome)).length ∧
        (process_batch gen ids bid uname email tNow).2 =
            ids.filterMap
              (fun i => (gen i).toOption.map (fun d => { d with batch_id := some bid })) ∧
        (process_batch gen ids bid uname email tNow).1.status =
            (if ids.filterMap
                (fun i => match gen i with
                  | Except.ok _ => none
                  | Except.error e => some ("Template " ++ toString i ++ ": " ++ e)) = []
              then "completed" else "completed_with_errors") ∧
        (process_batch gen ids bid uname email tNow).1.error_message =
            (if ids.filterMap
                (fun i => match gen i with
                  | Except.ok _ => none
                  | Except.error e => some ("Template " ++ toString i ++ ": " ++ e)) = []
              then none
              else some (pyJoin "\n" (ids.filterMap
                (fun i => match gen i with
                  | Except.ok _ => none
                  | Except.error e => some ("Template " ++ toString i ++ ": " ++ e))))) ∧
        (ids.filterMap
            (fun i => match gen i with
              | Except.ok _ => none
              | Except.error e => some ("Template " ++ toString i ++ ": " ++ e)) = [] ↔
          ∀ i ∈ ids, (gen i).toOption.isSome = true) ∧
        (process_batch gen ids bid uname email tNow).1.completed_at = some tNow ∧
        (process_batch gen ids bid uname email tNow).1.total_documents = ids.length) ∧
    ((process_batch genDemo [1, 2, 3] "b" "u" none 7).1.successful_documents = 2 ∧
      (process_batch genDemo [1, 2, 3] "b" "u" none 7).1.error_message =
          some "Template 2: invalid" ∧
      (process_batch genDemo [1, 2, 3] "b" "u" none 7).1.status = "completed_with_errors") := by
  constructor
  · intro gen ids bid uname email tNow
    have hfold := batchFold_spec gen bid ids ([], [])
    simp only [List.nil_append] at hfold
    refine ⟨?_, ?_, ?_, ?_, ?_, ?_, ?_⟩
    · show (ids.foldl (batchStep gen bid) ([], [])).1.length = _
      rw [hfold]
      exact lengthFilterMapOk gen bid ids
    · show (ids.foldl (batchStep gen bid) ([], [])).1 = _
      rw [hfold]
    · show (if (ids.foldl (batchStep gen bid) ([], [])).2 = [] then _ else _) = _
      rw [hfold]
    · show (if (ids.foldl (batchStep gen bid) ([], [])).2 = [] then _ else _) = _
      rw [hfold]
    · rw [List.filterMap_eq_nil_iff]
      constructor
      · intro h i hi
        have := h i hi
        rcases hg : gen i with e | d
        · rw [hg] at this
          simp at this
        · simp [hg, Except.toOption]
      · intro h i hi
        have := h i hi
        rcases hg : gen i with e | d
        · rw [hg] at this
          simp [Except.toOption] at this
        · simp [hg]
    · rfl
    · rfl
  · refine ⟨by decide, by decide, by decide⟩

/-- Claim C7: when validation fails, document generation raises with the
aggregated (newline-joined) error messages, leaves the persistent store
unchanged, and never invokes rendering (the result does not depend on the
renderer). -/
theorem c7_generation_validation_failure
    (rmatch : String → String → Bool) (parseF : String → Option PyDate)
    (nowWAT : PyDate) (renderA renderB : List (String × String) → Option Unit)
    (tmpl : TemplateM) (tid : Nat) (inputs : String → Option String)
    (uname : String) (st : List DocRecord)
    (hfail : DocumentProcessor.validate_inputs rmatch tmpl.placeholders inputs ≠ []) :
    DocumentProcessor.generate_document rmatch parseF nowWAT renderA tmpl tid inputs uname st =
      (st, Except.error
        (pyJoin "\n" (DocumentProcessor.validate_inputs rmatch tmpl.placeholders inputs))) ∧
    DocumentProcessor.generate_document rmatch parseF nowWAT renderA tmpl tid inputs uname st =
      DocumentProcessor.generate_document rmatch parseF nowWAT renderB tmpl tid inputs uname st := by
  unfold DocumentProcessor.generate_document
  rw [if_neg hfail]
  exact ⟨rfl, by rw [if_neg hfail]⟩

/-- Witness for C7: the required `client` field with no input aborts the
generation, independently of the renderer, leaving the store unchanged. -/
theorem c7_generation_validation_failure_witness :
    DocumentProcessor.generate_document (fun _ _ => false) parseDemo ⟨1, 1, 2000⟩
        (fun _ => some ()) tmplClient 5 (fun _ => none) "u" [] =
      ([], Except.error
        (pyJoin "\n" (DocumentProcessor.validate_inputs (fun _ _ => false)
          tmplClient.placeholders (fun _ => none)))) ∧
    DocumentProcessor.generate_document (fun _ _ => false) parseDemo ⟨1, 1, 2000⟩
        (fun _ => some ()) tmplClient 5 (fun _ => none) "u" [] =
      DocumentProcessor.generate_document (fun _ _ => false) parseDemo ⟨1, 1, 2000⟩
        (fun _ => none) tmplClient 5 (fun _ => none) "u" [] :=
  c7_generation_validation_failure (fun _ _ => false) parseDemo ⟨1, 1, 2000⟩
    (fun _ => some ()) (fun _ => none) tmplClient 5 (fun _ => none) "u" [] (by decide)

/-! ## Claim C3: instance naming and base-name resolution -/

/-- Claim C3, divergence witnessed at a concrete input.  Ingestion numbers
repeated occurrences from ordinal 2 (`client`, `client_instance_2`) and the
instance suffix strips back to the base name, as the claim says.  But the
base-name fallback in `prepare_context` is guarded by the truthiness of the
instance-name lookup, and ingestion stores a non-empty smart default
(`"Enter Client"`) for every such field: with the user input
`{client: "Mary"}` (generation inputs are keyed by base names only), the
first occurrence renders `"Mary"` while `client_instance_2` renders
`"Enter Client"` — the fallback never fires, contradicting the claim that
every instance resolves back to the base name and receives the same value
(and contradicting the code's own comment, which says to try the base name
whenever the instance name is not found). -/
theorem c3_instance_default_shadow :
    assignInstanceNames ["client", "client"] = ["client", "client_instance_2"] ∧
    baseNameOf "client_instance_2" = "client" ∧
    DocumentProcessor.prepare_context parseDemo ⟨1, 1, 2000⟩ tmplClient inputsClient =
      [("client", "Mary"), ("client_instance_2", "Enter Client")] ∧
    ("Mary" : String) ≠ "Enter Client" := by
  refine ⟨by decide, by decide, by decide, by decide⟩

/-! ## Support lemmas and claim C2: placeholder extraction -/

theorem checkClose_shape (l : List Char) (h : checkClose l = true) :
    ∃ rest2, l = rbraceChar :: rbraceChar :: rest2 := by
  rcases l with _ | ⟨d1, _ | ⟨d2, r⟩⟩
  · simp [checkClose] at h
  · simp [checkClose] at h
  · simp only [checkClose, Bool.and_eq_true, decide_eq_true_eq] at h
    rcases h with ⟨h1, h2⟩
    subst h1
    subst h2
    exact ⟨r, rfl⟩

theorem matchAfterBraces_shape (rest name : List Char)
    (h : matchAfterBraces rest = some name) :
    ∃ ws1 ws2 rest2,
      rest = ws1 ++ name ++ ws2 ++ rbraceChar :: rbraceChar :: rest2 ∧
      (∀ c ∈ ws1, isPySpace c = true) ∧ (∀ c ∈ ws2, isPySpace c = true) ∧
      name ≠ [] ∧ (∀ c ∈ name, isPyWordChar c = true) := by
  unfold matchAfterBraces at h
  dsimp only at h
  by_cases h1 : ((rest.dropWhile isPySpace).takeWhile isPyWordChar).isEmpty = true
  · rw [if_pos h1] at h
    simp at h
  · rw [if_neg h1] at h
    by_cases h2 : checkClose (((rest.dropWhile isPySpace).dropWhile isPyWordChar).dropWhile
        isPySpace) = true
    · rw [if_pos h2] at h
      have hname : name = (rest.dropWhile isPySpace).takeWhile isPyWordChar :=
        (Option.some.inj h).symm
      rcases checkClose_shape _ h2 with ⟨rest2, hr3⟩
      refine ⟨rest.takeWhile isPySpace,
        ((rest.dropWhile isPySpace).dropWhile isPyWordChar).takeWhile isPySpace, rest2,
        ?_, ?_, ?_, ?_, ?_⟩
      · rw [hname, ← hr3, List.append_assoc, List.append_assoc,
          List.takeWhile_append_dropWhile, List.takeWhile_append_dropWhile,
          List.takeWhile_append_dropWhile]
      · intro c hc
        exact List.mem_takeWhile_imp hc
      · intro c hc
        exact List.mem_takeWhile_imp hc
      · rw [hname]
        intro he
        rw [he] at h1
        simp at h1
      · intro c hc
        rw [hname] at hc
        exact List.mem_takeWhile_imp hc
    · rw [if_neg h2] at h
      simp at h

theorem matchAtHead_shape (s name : List Char) (h : matchAtHead s = some name) :
    ∃ ws1 ws2 rest2,
      s = lbraceChar :: lbraceChar ::
        (ws1 ++ name ++ ws2 ++ rbraceChar :: rbraceChar :: rest2) ∧
      (∀ c ∈ ws1, isPySpace c = true) ∧ (∀ c ∈ ws2, isPySpace c = true) ∧
      name ≠ [] ∧ (∀ c ∈ name, isPyWordChar c = true) := by
  rcases s with _ | ⟨c1, _ | ⟨c2, rest⟩⟩
  · simp [matchAtHead] at h
  · simp [matchAtHead] at h
  · rw [show matchAtHead (c1 :: c2 :: rest) =
        (if c1 = lbraceChar ∧ c2 = lbraceChar then matchAfterBraces rest else none) from rfl] at h
    by_cases hbr : c1 = lbraceChar ∧ c2 = lbraceChar
    · rw [if_pos hbr] at h
      rcases matchAfterBraces_shape rest name h with ⟨ws1, ws2, rest2, heq, hw1, hw2, hne, hwd⟩
      exact ⟨ws1, ws2, rest2, by rw [hbr.1, hbr.2, heq], hw1, hw2, hne, hwd⟩
    · rw [if_neg hbr] at h
      simp at h

theorem findMatches_mem (l : List Char) : ∀ (pos p : Nat) (n : List Char),
    (p, n) ∈ findMatches l pos →
    ∃ k, p = pos + k ∧ matchAtHead (l.drop k) = some n := by
  induction l with
  | nil =>
    intro pos p n h
    simp [findMatches] at h
  | cons c rest ih =>
    intro pos p n h
    rcases hm : matchAtHead (c :: rest) with _ | name0
    · rw [findMatches, hm] at h
      rcases ih (pos + 1) p n h with ⟨k, hk, hmk⟩
      exact ⟨k + 1, by omega, by simpa using hmk⟩
    · rw [findMatches, hm] at h
      rcases List.mem_cons.mp h with h1 | h1
      · rcases Prod.mk.injEq .. ▸ h1 with ⟨hp, hn⟩
        subst hp
        subst hn
        exact ⟨0, by omega, by simpa using hm⟩
      · rcases ih (pos + 1) p n h1 with ⟨k, hk, hmk⟩
        exact ⟨k + 1, by omega, by simpa using hmk⟩

theorem findMatches_ge (l : List Char) : ∀ (pos : Nat) (q : Nat × List Char),
    q ∈ findMatches l pos → pos ≤ q.1 := by
  induction l with
  | nil =>
    intro pos q h
    simp [findMatches] at h
  | cons c rest ih =>
    intro pos q h
    rcases hm : matchAtHead (c :: rest) with _ | name0
    · rw [findMatches, hm] at h
      exact le_trans (by omega) (ih (pos + 1) q h)
    · rw [findMatches, hm] at h
      rcases List.mem_cons.mp h with h1 | h1
      · rw [h1]
      · exact le_trans (by omega) (ih (pos + 1) q h1)

theorem findMatches_sorted (l : List Char) : ∀ pos : Nat,
    (findMatches l pos).Pairwise (fun a b => a.1 < b.1) := by
  induction l with
  | nil =>
    intro pos
    simp [findMatches]
  | cons c rest ih =>
    intro pos
    rcases hm : matchAtHead (c :: rest) with _ | name0
    · rw [findMatches, hm]
      exact ih (pos + 1)
    · rw [findMatches, hm]
      refine List.Pairwise.cons ?_ (ih (pos + 1))
      intro q hq
      have := findMatches_ge rest (pos + 1) q hq
      omega

theorem findRunIdx_spec (ts : List (List Char)) (startPos i : Nat)
    (h : findRunIdx ts startPos = some i) :
    i < ts.length ∧ (cumPos ts).getD i 0 ≤ startPos ∧
      startPos < (cumPos ts).getD (i + 1) 0 := by
  have h1 := List.find?_some h
  have h2 := List.mem_of_find?_eq_some h
  refine ⟨List.mem_range.mp h2, ?_⟩
  exact of_decide_eq_true h1

/-- Claim C2: every entry of `extract_template_variables` is sound — it
points at a real paragraph, records a genuine placeholder token of the
reconstructed paragraph text (with word-character name and optional inner
whitespace), its run index is the run whose cumulative text span contains
the match start, and its formatting (with half-point sizes halved by
integer division) is read from that run; the matches of one paragraph are
scanned in strictly increasing text order; and on a two-run demo document
with a duplicated name both occurrences are recorded, in document order,
never deduplicated, the first mapped to the run it starts in. -/
theorem c2_extract_occurrences :
    (∀ (doc : List Para) (occ : Occurrence),
        occ ∈ DocumentProcessor.extract_template_variables doc →
        extractionSound doc occ) ∧
    (∀ (l : List Char) (pos : Nat),
        (findMatches l pos).Pairwise (fun a b => a.1 < b.1)) ∧
    (∀ run : Run, (fmtOfRun run).size =
        (run.props.bind (fun p => p.szVal)).map (fun v => v / 2)) ∧
    DocumentProcessor.extract_template_variables [demoPara] =
      [⟨"name".data, 0, 0, ⟨true, false, false, some "Arial", some 12⟩, some "center"⟩,
       ⟨"name".data, 0, 1, ⟨false, false, false, none, none⟩, some "center"⟩] := by
  refine ⟨?_, ?_, ?_, by decide⟩
  · intro doc occ hmem
    unfold DocumentProcessor.extract_template_variables at hmem
    rcases List.mem_flatten.mp hmem with ⟨sub, hsub, hoccsub⟩
    rcases List.mem_map.mp hsub with ⟨ip, hip, hsubeq⟩
    rcases ip with ⟨i, p⟩
    have hget : doc.get? i = some p := by
      rw [List.get?_eq_getElem?]
      exact List.mk_mem_enum_iff_getElem?.mp hip
    subst hsubeq
    unfold extractPara at hoccsub
    rcases List.mem_filterMap.mp hoccsub with ⟨m, hm, hocc⟩
    rcases hr : findRunIdx (runsText p) m.1 with _ | ridx
    · rw [hr] at hocc
      simp at hocc
    · rw [hr] at hocc
      have hocceq : occ = ⟨m.2, i, ridx, fmtOfRun (p.runs.getD ridx dummyRun), p.alignment⟩ :=
        (Option.some.inj hocc).symm
      subst hocceq
      rcases findRunIdx_spec (runsText p) m.1 ridx hr with ⟨hlt, hle, hlt2⟩
      rcases findMatches_mem (fullText p) 0 m.1 m.2 hm with ⟨k, hk, hmk⟩
      have hk0 : k = m.1 := by omega
      subst hk0
      exact ⟨p, m.1, hget, rfl,
        matchAtHead_shape _ _ hmk,
        by simpa [runsText] using hlt,
        hle, hlt2, rfl⟩
  · exact fun l pos => findMatches_sorted l pos
  · intro run
    rcases run with ⟨_ | props, text⟩
    · rfl
    · rfl

/-- Witness for C2: soundness of the first extracted occurrence of the
demo document. -/
theorem c2_extract_occurrences_witness :
    extractionSound [demoPara]
      ⟨"name".data, 0, 0, ⟨true, false, false, some "Arial", some 12⟩, some "center"⟩ :=
  c2_extract_occurrences.1 [demoPara]
    ⟨"name".data, 0, 0, ⟨true, false, false, some "Arial", some 12⟩, some "center"⟩
    (by decide)
